import Mathlib

/-!
Verification of the device-session layer of `QSerialDevice.py`.

Modelling conventions (shallow embedding of the Python source):
byte sequences, that is Python `bytes` / Qt `QByteArray` values
and the session's receive buffer, are modelled as `List Nat`
(one entry per byte, values 0..255 where meaningful).
Python `str` values are represented by their UTF-8 encodings, so
`str.encode()` is the identity and `bytes.decode()` becomes a
UTF-8 validity check (`utf8Decode`): the Python call raises
`UnicodeDecodeError` exactly when `utf8Decode` returns `none`.
`QByteArray.trimmed()` strips the six ASCII whitespace bytes from
both ends (`trimmed` below); `QByteArray.contains` is substring
search (`containsBytes`).  Blocking reads performed by `getData`
are modelled by a list of `ReadEvent`s, one per `waitForReadyRead`
call: either a timeout or a successful read delivering a chunk of
bytes (an exhausted event list behaves as a timeout, since no
further bytes ever arrive).  Raising an exception is modelled by
an `Option`/`Except` result; log output by a `List Diag`.
-/

/-- The six ASCII whitespace bytes removed by `QByteArray.trimmed`. -/
def isWs (b : Nat) : Bool :=
  b == 9 || b == 10 || b == 11 || b == 12 || b == 13 || b == 32

/-- Drop whitespace bytes from the front (left half of `trimmed`). -/
def trimLeft (l : List Nat) : List Nat := l.dropWhile isWs

/-- Drop whitespace bytes from the back (right half of `trimmed`). -/
def trimRight (l : List Nat) : List Nat := (l.reverse.dropWhile isWs).reverse

/-- Model of `QByteArray.trimmed()`: strip ASCII whitespace from both ends. -/
def trimmed (l : List Nat) : List Nat := trimLeft (trimRight l)

/-- Whether `pat` is a prefix of `buf` (byte-wise). -/
def hasPrefixBytes : List Nat → List Nat → Bool
  | [], _ => true
  | _ :: _, [] => false
  | a :: pa, b :: pb => a == b && hasPrefixBytes pa pb

/-- Model of `QByteArray.contains(pat)`: substring search over bytes. -/
def containsBytes (pat : List Nat) : List Nat → Bool
  | [] => hasPrefixBytes pat []
  | b :: rest => hasPrefixBytes pat (b :: rest) || containsBytes pat rest

/-- Range check for a UTF-8 continuation byte. -/
def contOK (lo hi c : Nat) : Bool := decide (lo ≤ c ∧ c ≤ hi)

/-- One-byte-at-a-time UTF-8 acceptor.  The state is the list of
ranges still expected for continuation bytes of the character being
read (empty between characters).  At a character boundary the lead
byte selects the continuation ranges per the RFC 3629 table, which is
what Python's strict decoder enforces (overlong forms and surrogates
rejected). -/
def u8run : List (Nat × Nat) → List Nat → Bool
  | [], [] => true
  | _ :: _, [] => false
  | (lo, hi) :: pend, c :: rest => contOK lo hi c && u8run pend rest
  | [], b :: rest =>
    if b < 128 then u8run [] rest
    else if b < 194 then false
    else if b < 224 then u8run [(128, 191)] rest
    else if b < 240 then
      u8run [((if b == 224 then 160 else 128), (if b == 237 then 159 else 191)),
             (128, 191)] rest
    else if b < 245 then
      u8run [((if b == 240 then 144 else 128), (if b == 244 then 143 else 191)),
             (128, 191), (128, 191)] rest
    else false

/-- Strict UTF-8 validity of a byte sequence, as enforced by Python's
`bytes.decode()` with the default codec. -/
def validUtf8 (l : List Nat) : Bool := u8run [] l

/-- Model of Python `bytes.decode()`: the decoded string (represented by
its UTF-8 bytes) when the sequence is valid, `none` when the call would
raise `UnicodeDecodeError`. -/
def utf8Decode (l : List Nat) : Option (List Nat) :=
  if validUtf8 l then some l else none

/-- A candidate serial port as probed by `setup`: its busy flag, whether
`open(ReadWrite)` would succeed, the outcome of the `identify()` predicate,
and any stale bytes queued at open time. -/
structure Port where
  busy : Bool
  opens : Bool
  identifies : Bool
  stale : List Nat
deriving DecidableEq

/-- A probe of this port by `setup` ends with the port acquired. -/
def probeSucceeds (p : Port) : Bool := !p.busy && p.opens && p.identifies

/-- Log lines emitted by the session (the diagnostic surface). -/
inductive Diag
  | noPortSpecified
  | settingUp
  | portBusy
  | couldNotOpen
  | clearedStale
  | deviceFound
  | deviceNotConnected
  | modeError
deriving DecidableEq

/-- Outcome of one `waitForReadyRead` call inside `getData`: either the
timeout elapsed, or bytes arrived and `readAll` returns the chunk. -/
inductive ReadEvent
  | timeout
  | bytes (bs : List Nat)
deriving DecidableEq

/-- State of a `QSerialDevice`: the open channel (the device IS a
`QSerialPort`; `none` means closed), the receive buffer, the `sync`
flag, and the number of active `readyRead` signal connections. -/
structure Session where
  channel : Option Port
  buffer : List Nat
  eol : List Nat
  sync : Bool
  bindings : Nat
deriving DecidableEq

/-- Model of the `sync` property setter: store the flag, disconnect all
`readyRead` connections (the `try` block makes this a no-op when none
exist), then connect `receive` exactly when the new mode is
asynchronous. -/
def setSync (s : Session) (state : Bool) : Session :=
  { s with sync := state, bindings := if state then 0 else 1 }

/-- Model of `setup(portinfo)`: returns the boolean result, the updated
session, and the log lines.  Mirrors the source line by line: a `None`
port logs and fails; a busy port fails before opening; a failed `open`
leaves the channel as it was; stale bytes are drained to the log; a
failed `identify` closes the port again. -/
def setup (s : Session) : Option Port → Bool × Session × List Diag
  | none => (false, s, [Diag.noPortSpecified])
  | some p =>
    if p.busy then (false, s, [Diag.settingUp, Diag.portBusy])
    else if !p.opens then (false, s, [Diag.settingUp, Diag.couldNotOpen])
    else
      let ds := Diag.settingUp :: (if p.stale = [] then [] else [Diag.clearedStale])
      if p.identifies then (true, { s with channel := some p }, ds ++ [Diag.deviceFound])
      else (false, { s with channel := none }, ds ++ [Diag.deviceNotConnected])

/-- Model of `find()`: probe the catalog in order with `setup`, stopping
at the first success.  Also returns the list of ports actually probed,
in order, so that sequential first-match-wins behaviour is visible. -/
def find (s : Session) : List Port → Session × List Port
  | [] => (s, [])
  | p :: rest =>
    let r := setup s (some p)
    if r.1 then (r.2.1, [p])
    else
      let r2 := find r.2.1 rest
      (r2.1, p :: r2.2)

/-- The only exception `__init__` can raise itself: the `ValueError`
signalled when no serial device could be found and opened. -/
inductive InitError
  | deviceNotFound
deriving DecidableEq

/-- Session state right after the attribute assignments in `__init__`
(buffer empty, channel closed, `self.sync = sync` runs the property
setter). -/
def initSession (eol : List Nat) (syncMode : Bool) : Session :=
  setSync { channel := none, buffer := [], eol := eol, sync := syncMode, bindings := 0 } syncMode

/-- Model of `__init__`: run discovery (`find`) when no port is given,
otherwise `setup` on the given port; raise `DeviceNotFound` when the
session is not open afterwards. -/
def initDevice (eol : List Nat) (syncMode : Bool) (port? : Option Port) (ports : List Port) :
    Except InitError Session :=
  let s0 := initSession eol syncMode
  let s1 := match port? with
            | none => (find s0 ports).1
            | some p => (setup s0 (some p)).2.1
  if s1.channel.isSome then Except.ok s1 else Except.error InitError.deviceNotFound

/-- Model of `sendData(data)`: the byte sequence written to the channel,
namely the text followed by the configured eol. -/
def sendData (s : Session) (data : List Nat) : List Nat := data ++ s.eol

/-- The `while` loop of `getData`: before each blocking read, check
whether the buffer already contains the eol; a successful read appends
its bytes and the loop continues; the first timeout breaks out at once.
Returns the buffer contents when the loop exits. -/
def getDataLoop (eol : List Nat) (buf : List Nat) : List ReadEvent → List Nat
  | [] => buf
  | ev :: rest =>
    if containsBytes eol buf then buf
    else
      match ev with
      | ReadEvent.timeout => buf
      | ReadEvent.bytes bs => getDataLoop eol (buf ++ bs) rest

/-- Model of `getData()`: run the read loop, decode the trimmed buffer,
then clear the buffer and return the string.  When decoding raises, the
call returns nothing and `buffer.clear()` is never reached. -/
def getData (s : Session) (evs : List ReadEvent) : Option (List Nat) × Session :=
  let final := getDataLoop s.eol s.buffer evs
  match utf8Decode (trimmed final) with
  | some d => (some d, { s with buffer := [] })
  | none => (none, { s with buffer := final })

/-- Model of the `receive` slot: append the newly readable bytes to the
buffer; when the buffer contains the eol, decode the trimmed buffer,
emit it via `dataReady` (the first component) and clear the buffer.
When decoding raises, nothing is emitted and the clear is never
reached. -/
def receive (s : Session) (incoming : List Nat) : Option (List Nat) × Session :=
  let b := s.buffer ++ incoming
  if containsBytes s.eol b then
    match utf8Decode (trimmed b) with
    | some d => (some d, { s with buffer := [] })
    | none => (none, { s with buffer := b })
  else (none, { s with buffer := b })

/-- Model of `handshake(data)`: in asynchronous mode log a mode error
and return the empty string without writing; in synchronous mode send
the data and return `getData`'s result.  Components: result, list of
writes issued to the channel, log lines, final session. -/
def handshake (s : Session) (data : List Nat) (evs : List ReadEvent) :
    Option (List Nat) × List (List Nat) × List Diag × Session :=
  if !s.sync then (some [], [], [Diag.modeError], s)
  else
    let r := getData s evs
    (r.1, [sendData s data], [], r.2)

/-- One send/echo/read exchange: `sendData t`, the peer echoes the
written bytes back as one chunk, and `getData` reads the reply. -/
def roundTrip (s : Session) (t : List Nat) : Option (List Nat) :=
  (getData s [ReadEvent.bytes (sendData s t)]).1

/-- Concatenation of a list of read chunks. -/
def concatAll : List (List Nat) → List Nat
  | [] => []
  | c :: cs => c ++ concatAll cs

theorem u8run_ascii_all {w : List Nat} (hw : ∀ b ∈ w, b < 128) : u8run [] w = true := by
  induction w with
  | nil => rfl
  | cons a w2 ih =>
      have ha : a < 128 := hw a (by simp)
      rw [u8run, if_pos ha]
      exact ih (fun b hb => hw b (by simp [hb]))

theorem u8run_append_ascii {w : List Nat} (hw : ∀ b ∈ w, b < 128) :
    ∀ (l : List Nat) (pend : List (Nat × Nat)), (∀ q ∈ pend, 128 ≤ q.1) →
      u8run pend (l ++ w) = u8run pend l := by
  intro l
  induction l with
  | nil =>
      intro pend hp
      match pend with
      | [] =>
          simp [u8run, u8run_ascii_all hw]
      | (lo, hi) :: ps =>
          cases w with
          | nil => simp
          | cons a w2 =>
              have ha : a < 128 := hw a (by simp)
              have hlo : 128 ≤ lo := by simpa using hp (lo, hi) (by simp)
              have hc : contOK lo hi a = false := by
                simp only [contOK, decide_eq_false_iff_not]
                omega
              simp [u8run, hc]
  | cons b l2 ih =>
      intro pend hp
      match pend with
      | (lo, hi) :: ps =>
          have := ih ps (fun q hq => hp q (by simp [hq]))
          simp [u8run, this]
      | [] =>
          by_cases h1 : b < 128
          · have := ih [] (by simp)
            simp only [List.cons_append]
            rw [u8run, if_pos h1, u8run, if_pos h1]
            exact this
          · by_cases h2 : b < 194
            · simp only [List.cons_append]
              rw [u8run, if_neg h1, if_pos h2, u8run, if_neg h1, if_pos h2]
            · by_cases h3 : b < 224
              · have := ih [(128, 191)] (by simp)
                simp only [List.cons_append]
                rw [u8run, if_neg h1, if_neg h2, if_pos h3,
                  u8run, if_neg h1, if_neg h2, if_pos h3]
                exact this
              · by_cases h4 : b < 240
                · have hinv : ∀ q ∈ [((if b == 224 then 160 else 128 : Nat),
                      (if b == 237 then 159 else 191 : Nat)), ((128 : Nat), (191 : Nat))],
                      128 ≤ q.1 := by
                    intro q hq
                    simp only [List.mem_cons, List.mem_singleton] at hq
                    rcases hq with rfl | rfl | h
                    · simp only []
                      split <;> omega
                    · simp
                    · simp at h
                  have := ih _ hinv
                  simp only [List.cons_append]
                  rw [u8run, if_neg h1, if_neg h2, if_neg h3, if_pos h4,
                    u8run, if_neg h1, if_neg h2, if_neg h3, if_pos h4]
                  exact this
                · by_cases h5 : b < 245
                  · have hinv : ∀ q ∈ [((if b == 240 then 144 else 128 : Nat),
                        (if b == 244 then 143 else 191 : Nat)), ((128 : Nat), (191 : Nat)),
                        ((128 : Nat), (191 : Nat))], 128 ≤ q.1 := by
                      intro q hq
                      simp only [List.mem_cons, List.mem_singleton] at hq
                      rcases hq with rfl | rfl | rfl | h
                      · simp only []
                        split <;> omega
                      · simp
                      · simp
                      · simp at h
                    have := ih _ hinv
                    simp only [List.cons_append]
                    rw [u8run, if_neg h1, if_neg h2, if_neg h3, if_neg h4, if_pos h5,
                      u8run, if_neg h1, if_neg h2, if_neg h3, if_neg h4, if_pos h5]
                    exact this
                  · simp only [List.cons_append]
                    rw [u8run, if_neg h1, if_neg h2, if_neg h3, if_neg h4, if_neg h5,
                      u8run, if_neg h1, if_neg h2, if_neg h3, if_neg h4, if_neg h5]

theorem valid_append_ascii {w : List Nat} (hw : ∀ b ∈ w, b < 128) (xs : List Nat) :
    validUtf8 (xs ++ w) = validUtf8 xs :=
  u8run_append_ascii hw xs [] (by simp)

theorem valid_prepend_ascii : ∀ (w : List Nat), (∀ b ∈ w, b < 128) →
    ∀ xs, validUtf8 (w ++ xs) = validUtf8 xs
  | [], _, _ => rfl
  | a :: w2, hw, xs => by
      have ha : a < 128 := hw a (by simp)
      have ih := valid_prepend_ascii w2 (fun b hb => hw b (by simp [hb])) xs
      show u8run [] (a :: (w2 ++ xs)) = validUtf8 xs
      rw [u8run, if_pos ha]
      exact ih

theorem isWs_lt {b : Nat} (h : isWs b = true) : b < 128 := by
  simp [isWs] at h
  rcases h with h | h | h | h | h | h <;> omega

theorem dropWhile_append_all (p : Nat → Bool) :
    ∀ (u : List Nat), (∀ a ∈ u, p a = true) →
      ∀ v, List.dropWhile p (u ++ v) = List.dropWhile p v
  | [], _, _ => rfl
  | a :: u2, hu, v => by
      have ha : p a = true := hu a (by simp)
      rw [List.cons_append, List.dropWhile_cons, if_pos ha]
      exact dropWhile_append_all p u2 (fun x hx => hu x (by simp [hx])) v

theorem trimRight_spec (l : List Nat) :
    l = trimRight l ++ (l.reverse.takeWhile isWs).reverse := by
  conv_lhs => rw [← List.reverse_reverse l,
    ← List.takeWhile_append_dropWhile (p := isWs) (l := l.reverse)]
  rw [List.reverse_append]
  rfl

theorem valid_trimRight {l : List Nat} (h : validUtf8 l = true) :
    validUtf8 (trimRight l) = true := by
  have hw : ∀ b ∈ (l.reverse.takeWhile isWs).reverse, b < 128 := by
    intro b hb
    rw [List.mem_reverse] at hb
    exact isWs_lt (List.mem_takeWhile_imp hb)
  have he := valid_append_ascii hw (trimRight l)
  rw [← he, ← trimRight_spec l]
  exact h

theorem valid_trimLeft {l : List Nat} (h : validUtf8 l = true) :
    validUtf8 (trimLeft l) = true := by
  have hw : ∀ b ∈ l.takeWhile isWs, b < 128 :=
    fun b hb => isWs_lt (List.mem_takeWhile_imp hb)
  have hpre := valid_prepend_ascii (l.takeWhile isWs) hw (trimLeft l)
  rw [← hpre, trimLeft, List.takeWhile_append_dropWhile]
  exact h

theorem valid_trimmed {l : List Nat} (h : validUtf8 l = true) :
    validUtf8 (trimmed l) = true :=
  valid_trimLeft (valid_trimRight h)

theorem trimmed_append_ws {d : List Nat} (hd : ∀ b ∈ d, isWs b = true) (t : List Nat) :
    trimmed (t ++ d) = trimmed t := by
  have hr : trimRight (t ++ d) = trimRight t := by
    rw [trimRight, trimRight, List.reverse_append,
      dropWhile_append_all isWs d.reverse
        (fun a ha => hd a (by rwa [List.mem_reverse] at ha)) t.reverse]
  rw [trimmed, trimmed, hr]

theorem hasPrefixBytes_refl_append : ∀ (pat rest : List Nat),
    hasPrefixBytes pat (pat ++ rest) = true
  | [], _ => rfl
  | a :: pa, rest => by
      simp [hasPrefixBytes, hasPrefixBytes_refl_append pa rest]

theorem containsBytes_of_hasPrefix {pat l : List Nat} (h : hasPrefixBytes pat l = true) :
    containsBytes pat l = true := by
  cases l with
  | nil => simpa [containsBytes] using h
  | cons b rest => simp [containsBytes, h]

theorem containsBytes_mid (pat : List Nat) : ∀ (pre post : List Nat),
    containsBytes pat (pre ++ (pat ++ post)) = true
  | [], post => by
      simpa using containsBytes_of_hasPrefix (hasPrefixBytes_refl_append pat post)
  | a :: pre2, post => by
      simp only [List.cons_append]
      simp [containsBytes, containsBytes_mid pat pre2 post]

theorem containsBytes_suffix (pat t : List Nat) : containsBytes pat (t ++ pat) = true := by
  simpa using containsBytes_mid pat t []

theorem containsBytes_empty {pat : List Nat} (h : pat ≠ []) : containsBytes pat [] = false := by
  cases pat with
  | nil => exact absurd rfl h
  | cons a pa => simp [containsBytes, hasPrefixBytes]

theorem getDataLoop_no_eol (eol : List Nat) : ∀ (chunks : List (List Nat)) (buf : List Nat),
    (∀ k, k ≤ chunks.length → containsBytes eol (buf ++ concatAll (chunks.take k)) = false) →
    ∀ rest, getDataLoop eol buf (chunks.map ReadEvent.bytes ++ ReadEvent.timeout :: rest)
      = buf ++ concatAll chunks
  | [], buf, h, rest => by
      have h0 : containsBytes eol buf = false := by
        simpa [concatAll] using h 0 (by simp)
      simp [getDataLoop, h0, concatAll]
  | c :: cs, buf, h, rest => by
      have h0 : containsBytes eol buf = false := by
        simpa [concatAll] using h 0 (by simp)
      have htail : ∀ k, k ≤ cs.length →
          containsBytes eol ((buf ++ c) ++ concatAll (cs.take k)) = false := by
        intro k hk
        have := h (k + 1) (by simpa using hk)
        simpa [concatAll, List.append_assoc] using this
      have ih := getDataLoop_no_eol eol cs (buf ++ c) htail rest
      simp only [List.map_cons, List.cons_append]
      rw [getDataLoop, if_neg (by simp [h0])]
      exact ih.trans (by simp [concatAll, List.append_assoc])

theorem getDataLoop_found (eol : List Nat) : ∀ (chunks : List (List Nat)) (buf : List Nat),
    (∀ k, k < chunks.length → containsBytes eol (buf ++ concatAll (chunks.take k)) = false) →
    containsBytes eol (buf ++ concatAll chunks) = true →
    ∀ evs2, getDataLoop eol buf (chunks.map ReadEvent.bytes ++ evs2)
      = buf ++ concatAll chunks
  | [], buf, _, hfound, evs2 => by
      have hb : containsBytes eol buf = true := by simpa [concatAll] using hfound
      cases evs2 with
      | nil => simp [getDataLoop, concatAll]
      | cons ev r => simp [getDataLoop, hb, concatAll]
  | c :: cs, buf, h, hfound, evs2 => by
      have h0 : containsBytes eol buf = false := by
        simpa [concatAll] using h 0 (by simp)
      have htail : ∀ k, k < cs.length →
          containsBytes eol ((buf ++ c) ++ concatAll (cs.take k)) = false := by
        intro k hk
        have := h (k + 1) (by simpa using hk)
        simpa [concatAll, List.append_assoc] using this
      have hfound2 : containsBytes eol ((buf ++ c) ++ concatAll cs) = true := by
        simpa [concatAll, List.append_assoc] using hfound
      have ih := getDataLoop_found eol cs (buf ++ c) htail hfound2 evs2
      simp only [List.map_cons, List.cons_append]
      rw [getDataLoop, if_neg (by simp [h0])]
      exact ih.trans (by simp [concatAll, List.append_assoc])

theorem find_fail_closed (ports : List Port) : ∀ (s : Session),
    s.channel = none → (∀ p ∈ ports, probeSucceeds p = false) →
    (find s ports).1.channel = none := by
  induction ports with
  | nil =>
      intro s hs _
      exact hs
  | cons p rest ih =>
      intro s hs hall
      have hp := hall p (by simp)
      have htail : ∀ q ∈ rest, probeSucceeds q = false :=
        fun q hq => hall q (by simp [hq])
      rcases p with ⟨b, o, i, st⟩
      cases b <;> cases o <;> cases i <;> simp_all [find, setup, probeSucceeds]

/-- C1: in synchronous mode `getData` loops over blocking reads: every
read that returns in time appends its bytes to the buffer and the loop
continues until the buffer holds the delimiter; the first read that
times out aborts the loop at once, with no further retries (the events
after the timeout are never consumed), and `getData` then returns
whatever is currently decodable from the (possibly incomplete,
non-delimiter-terminated) buffer. -/
theorem getData_sync_read_loop (s : Session) (chunks : List (List Nat))
    (rest : List ReadEvent) :
    ((∀ k, k ≤ chunks.length →
        containsBytes s.eol (s.buffer ++ concatAll (chunks.take k)) = false) →
      getDataLoop s.eol s.buffer (chunks.map ReadEvent.bytes ++ ReadEvent.timeout :: rest)
          = s.buffer ++ concatAll chunks
        ∧ (getData s (chunks.map ReadEvent.bytes ++ ReadEvent.timeout :: rest)).1
          = utf8Decode (trimmed (s.buffer ++ concatAll chunks)))
    ∧ ((∀ k, k < chunks.length →
        containsBytes s.eol (s.buffer ++ concatAll (chunks.take k)) = false) →
      containsBytes s.eol (s.buffer ++ concatAll chunks) = true →
      getDataLoop s.eol s.buffer (chunks.map ReadEvent.bytes ++ rest)
          = s.buffer ++ concatAll chunks
        ∧ (getData s (chunks.map ReadEvent.bytes ++ rest)).1
          = utf8Decode (trimmed (s.buffer ++ concatAll chunks))) := by
  constructor
  · intro h
    have hl := getDataLoop_no_eol s.eol chunks s.buffer h rest
    refine ⟨hl, ?_⟩
    rw [getData]
    simp only [hl]
    rcases hd : utf8Decode (trimmed (s.buffer ++ concatAll chunks)) with _ | d <;> simp [hd]
  · intro h hfound
    have hl := getDataLoop_found s.eol chunks s.buffer h hfound rest
    refine ⟨hl, ?_⟩
    rw [getData]
    simp only [hl]
    rcases hd : utf8Decode (trimmed (s.buffer ++ concatAll chunks)) with _ | d <;> simp [hd]

/-- Witness for C1 at a concrete input: with delimiter CR, an empty
buffer, one successful read delivering byte 65 and then a timeout,
`getData` returns the decodable partial buffer, the string made of
byte 65. -/
theorem getData_sync_read_loop_case :
    (getData ⟨none, [], [13], true, 0⟩ [ReadEvent.bytes [65], ReadEvent.timeout]).1
      = some [65] := by
  have h := (getData_sync_read_loop ⟨none, [], [13], true, 0⟩ [[65]] []).1 (by decide)
  exact h.2.trans (by decide)

/-- C2 counterexample: with delimiter CR and the buffer holding the two
delimiter-terminated messages 65-CR and 66-CR, one extraction step
emits the bytes 65-CR-66 (the whole trimmed buffer, the second message
included), not just the first message 65 as the claim states. -/
theorem receive_keeps_second_message :
    (receive ⟨none, [], [13], false, 1⟩ [65, 13, 66, 13]).1 = some [65, 13, 66]
    ∧ (receive ⟨none, [], [13], false, 1⟩ [65, 13, 66, 13]).1 ≠ some [65] := by
  decide

/-- C2 (amended): when the buffer holds two delimiter-terminated
messages concatenated, a single extraction returns the entire buffer
content, whitespace-trimmed at both ends and decoded — the bytes
beyond the first delimiter, second message included, are part of the
one returned string rather than discarded — and resets the buffer to
empty, so that nothing (in particular not the second message) is
recoverable from the buffer afterwards. -/
theorem receive_extracts_whole_buffer (s : Session) (m1 m2 : List Nat)
    (hbuf : s.buffer = [])
    (hv : validUtf8 (trimmed (m1 ++ s.eol ++ m2 ++ s.eol)) = true) :
    receive s (m1 ++ s.eol ++ m2 ++ s.eol)
      = (some (trimmed (m1 ++ s.eol ++ m2 ++ s.eol)), { s with buffer := [] })
    ∧ (s.eol ≠ [] →
      receive { s with buffer := [] } [] = (none, { s with buffer := [] })) := by
  constructor
  · have hcont : containsBytes s.eol (m1 ++ (s.eol ++ (m2 ++ s.eol))) = true :=
      containsBytes_mid s.eol m1 (m2 ++ s.eol)
    have hv2 : validUtf8 (trimmed (m1 ++ (s.eol ++ (m2 ++ s.eol)))) = true := by
      simpa [List.append_assoc] using hv
    simp [receive, hbuf, hcont, utf8Decode, hv2, List.append_assoc]
  · intro hne
    simp [receive, containsBytes_empty hne]

/-- Witness for C2 at a concrete input: the two messages 65-CR and
66-CR are extracted as the single string 65-CR-66, the buffer is reset
to empty, and a further extraction attempt on the reset buffer yields
nothing. -/
theorem receive_extracts_whole_buffer_case :
    receive ⟨none, [], [13], false, 1⟩ ([65] ++ [13] ++ [66] ++ [13])
      = (some [65, 13, 66], ⟨none, [], [13], false, 1⟩)
    ∧ receive ⟨none, [], [13], false, 1⟩ [] = (none, ⟨none, [], [13], false, 1⟩) := by
  have h := receive_extracts_whole_buffer ⟨none, [], [13], false, 1⟩ [65] [66] rfl (by decide)
  exact ⟨h.1.trans (by decide), h.2 (by decide)⟩

/-- C3: `handshake` invoked while the mode is asynchronous returns the
empty string, logs a ModeError diagnostic and issues no write; invoked
while the mode is synchronous it performs `sendData` (one write of the
text followed by the delimiter) immediately followed by `getData` and
returns the result of `getData`. -/
theorem handshake_mode (s : Session) (data : List Nat) (evs : List ReadEvent) :
    (s.sync = false →
      handshake s data evs = (some [], [], [Diag.modeError], s))
    ∧ (s.sync = true →
      handshake s data evs
        = ((getData s evs).1, [data ++ s.eol], [], (getData s evs).2)) := by
  constructor
  · intro h
    simp [handshake, h]
  · intro h
    simp [handshake, h, sendData]

/-- Witness for C3 at a concrete input: a handshake of byte 86 in an
asynchronous session returns the empty string with a ModeError logged
and an empty write list, leaving the session unchanged. -/
theorem handshake_mode_case :
    handshake ⟨none, [], [13], false, 1⟩ [86] []
      = (some [], [], [Diag.modeError], ⟨none, [], [13], false, 1⟩) :=
  (handshake_mode ⟨none, [], [13], false, 1⟩ [86] []).1 rfl

/-- C4: discovery probes the catalog strictly in order, stops at the
first descriptor whose probe succeeds, and leaves no failed candidate
open: over a catalog of three descriptors where the first fails and
the second succeeds, the session ends with the second descriptor as
its open channel, and only the first two descriptors are ever probed
(the third is never touched). -/
theorem find_first_match (s : Session) (p1 p2 p3 : Port)
    (h1 : probeSucceeds p1 = false) (h2 : probeSucceeds p2 = true) :
    (find s [p1, p2, p3]).1.channel = some p2
    ∧ (find s [p1, p2, p3]).2 = [p1, p2] := by
  rcases p1 with ⟨b1, o1, i1, st1⟩
  rcases p2 with ⟨b2, o2, i2, st2⟩
  simp only [probeSucceeds, Bool.and_eq_true, Bool.not_eq_true'] at h2
  obtain ⟨⟨hb2, ho2⟩, hi2⟩ := h2
  subst hb2; subst ho2; subst hi2
  cases b1 <;> cases o1 <;> cases i1 <;>
    simp_all [find, setup, probeSucceeds]

/-- Witness for C4 at a concrete input: with a busy first port, a
succeeding second port and a third port, discovery opens the second
port and probes exactly the first two. -/
theorem find_first_match_case :
    (find ⟨none, [], [13], true, 0⟩
        [⟨true, true, true, []⟩, ⟨false, true, true, []⟩, ⟨false, true, true, []⟩]).1.channel
      = some ⟨false, true, true, []⟩
    ∧ (find ⟨none, [], [13], true, 0⟩
        [⟨true, true, true, []⟩, ⟨false, true, true, []⟩, ⟨false, true, true, []⟩]).2
      = [⟨true, true, true, []⟩, ⟨false, true, true, []⟩] :=
  find_first_match ⟨none, [], [13], true, 0⟩ _ _ _ (by decide) (by decide)

/-- C5 counterexample: the round trip does not return the trimmed text
for every delimiter.  With the non-whitespace delimiter 59 and text 65
the reply decodes to 65-59 (the delimiter survives trimming), and with
the empty delimiter the loop exits before reading and returns the
empty string; both differ from the trimmed text 65. -/
theorem roundTrip_non_ws_delimiter :
    roundTrip ⟨none, [], [59], true, 0⟩ [65] = some [65, 59]
    ∧ some [65, 59] ≠ some (trimmed [65])
    ∧ roundTrip ⟨none, [], [], true, 0⟩ [65] = some []
    ∧ some ([] : List Nat) ≠ some (trimmed [65]) := by
  decide

/-- C5 (amended): for every nonempty delimiter consisting entirely of
whitespace bytes (such as the default carriage return) and every text
not containing the delimiter, `sendData` of the text followed by the
peer echoing back text-plus-delimiter makes `getData` return exactly
the text trimmed of surrounding whitespace. -/
theorem roundTrip_ws_delimiter (s : Session) (t : List Nat)
    (hbuf : s.buffer = []) (hne : s.eol ≠ [])
    (hws : ∀ b ∈ s.eol, isWs b = true)
    (ht : validUtf8 t = true)
    (_hnc : containsBytes s.eol t = false) :
    roundTrip s t = some (trimmed t) := by
  have hstep : getDataLoop s.eol s.buffer [ReadEvent.bytes (t ++ s.eol)] = t ++ s.eol := by
    rw [hbuf, getDataLoop, if_neg (by simp [containsBytes_empty hne])]
    simp [getDataLoop]
  have htr : trimmed (t ++ s.eol) = trimmed t := trimmed_append_ws hws t
  have hv : validUtf8 (trimmed t) = true := valid_trimmed ht
  simp [roundTrip, getData, sendData, hstep, htr, utf8Decode, hv]

/-- Witness for C5 at a concrete input: with delimiter CR-LF and text
72-32-73, the echoed round trip returns exactly that text trimmed. -/
theorem roundTrip_ws_delimiter_case :
    roundTrip ⟨none, [], [13, 10], true, 0⟩ [72, 32, 73] = some (trimmed [72, 32, 73]) :=
  roundTrip_ws_delimiter ⟨none, [], [13, 10], true, 0⟩ [72, 32, 73]
    rfl (by decide) (by decide) (by decide) (by decide)

/-- C6: when discovery runs over an empty port catalog, or exhausts the
catalog with no candidate succeeding, the session remains closed (no
channel open), and construction fails with the DeviceNotFound error —
the only error construction can raise. -/
theorem initDevice_no_device (eol : List Nat) (m : Bool) (ports : List Port)
    (hall : ∀ p ∈ ports, probeSucceeds p = false) :
    (find (initSession eol m) ports).1.channel = none
    ∧ initDevice eol m none ports = Except.error InitError.deviceNotFound
    ∧ ∀ e, initDevice eol m none ports = Except.error e → e = InitError.deviceNotFound := by
  have hcl : (find (initSession eol m) ports).1.channel = none :=
    find_fail_closed ports _ (by simp [initSession, setSync]) hall
  refine ⟨hcl, ?_, ?_⟩
  · simp [initDevice, hcl]
  · intro e _
    cases e
    rfl

/-- Witness for C6 at a concrete input: construction over an empty
catalog with no explicit port raises DeviceNotFound. -/
theorem initDevice_no_device_case :
    initDevice [13] false none [] = Except.error InitError.deviceNotFound :=
  (initDevice_no_device [13] false [] (by simp)).2.1

/-- C7 counterexample: when the trimmed buffer fails decoding (byte 255
before the CR delimiter), nothing is emitted, but the receive buffer is
NOT cleared — it still holds the two bytes — contradicting the claim
that the buffer is cleared after a decode failure. -/
theorem decode_failure_buffer_not_cleared :
    (receive ⟨none, [], [13], false, 1⟩ [255, 13]).1 = none
    ∧ ((receive ⟨none, [], [13], false, 1⟩ [255, 13]).2).buffer = [255, 13]
    ∧ [255, 13] ≠ ([] : List Nat) := by
  decide

/-- C7 (amended): when extraction meets buffered bytes whose trimmed
content fails text decoding, the decode error propagates as an uncaught
exception: the malformed message is neither emitted via dataReady nor
returned by getData, and the receive buffer is NOT cleared — it
retains the malformed bytes, in both the asynchronous (`receive`) and
the synchronous (`getData`) paths. -/
theorem decode_failure_keeps_buffer (s : Session) (incoming : List Nat)
    (evs : List ReadEvent) :
    (containsBytes s.eol (s.buffer ++ incoming) = true →
      validUtf8 (trimmed (s.buffer ++ incoming)) = false →
      receive s incoming = (none, { s with buffer := s.buffer ++ incoming }))
    ∧ (validUtf8 (trimmed (getDataLoop s.eol s.buffer evs)) = false →
      getData s evs = (none, { s with buffer := getDataLoop s.eol s.buffer evs })) := by
  constructor
  · intro hc hv
    simp [receive, hc, utf8Decode, hv]
  · intro hv
    simp [getData, utf8Decode, hv]

/-- Witness for C7 at a concrete input: appending bytes 255 and CR to a
buffer holding byte 65 triggers the delimiter check, decoding fails,
nothing is emitted, and the buffer keeps all three bytes. -/
theorem decode_failure_keeps_buffer_case :
    receive ⟨none, [65], [13], true, 0⟩ [255, 13]
      = (none, ⟨none, [65, 255, 13], [13], true, 0⟩) :=
  (decode_failure_keeps_buffer ⟨none, [65], [13], true, 0⟩ [255, 13] []).1
    (by decide) (by decide)

/-- C8: each mode assignment stores the flag, disconnects every
previously bound readyRead handler (safely, from any number of
bindings including zero), and binds the receive handler exactly when
the new mode is asynchronous; hence after any nonempty sequence of
mode switches exactly one binding is active when the final mode is
asynchronous and none when it is synchronous. -/
theorem setSync_single_binding (s : Session) (ms : List Bool) (m : Bool) :
    (setSync s m).bindings = (if m then 0 else 1)
    ∧ (setSync s m).sync = m
    ∧ (((ms ++ [m]).foldl setSync s).bindings = (if m then 0 else 1)
        ∧ ((ms ++ [m]).foldl setSync s).sync = m) := by
  refine ⟨rfl, rfl, ?_⟩
  rw [List.foldl_append]
  exact ⟨rfl, rfl⟩

/-- C9: whenever `getData` returns normally (the decode step does not
raise), the receive buffer afterwards is empty, regardless of whether
the loop found a complete delimiter-terminated message or aborted on a
read timeout with a partial buffer. -/
theorem getData_clears_buffer (s : Session) (evs : List ReadEvent) :
    ((getData s evs).1).isSome = true → ((getData s evs).2).buffer = [] := by
  intro h
  rw [getData] at h ⊢
  rcases hd : utf8Decode (trimmed (getDataLoop s.eol s.buffer evs)) with _ | d <;>
    simp [hd] at h ⊢

/-- Witness for C9 at a concrete input: a timed-out read with a partial
undelimited buffer still returns with the buffer cleared. -/
theorem getData_clears_buffer_case :
    ((getData ⟨none, [65], [13], true, 0⟩ [ReadEvent.timeout]).2).buffer = [] :=
  getData_clears_buffer ⟨none, [65], [13], true, 0⟩ [ReadEvent.timeout] (by decide)

/-- C10: `setup` invoked with no port descriptor returns failure after
logging a diagnostic, leaving the whole session state — channel and
buffer included — untouched, and raises nothing (it returns normally). -/
theorem setup_none (s : Session) :
    (setup s none).1 = false
    ∧ (setup s none).2.1 = s
    ∧ (setup s none).2.2 = [Diag.noPortSpecified] :=
  ⟨rfl, rfl, rfl⟩
